import Mathlib

/-!
Verification development for the flask-chatbot retrieval-and-citation engine.

The definitions below are shallow embeddings of the Python functions in
`agent_service.py` and `chroma1.py`.  Strings are modelled by Lean `String`
(operating on the underlying `List Char`), machine floats (distance scores)
by `ℚ`, Python dictionaries by ordered association lists, and external
collaborators (the Chroma similarity search, the PDF loader, the style
retriever and the reasoning loop) by explicit function parameters.
-/

namespace Chatbot

/-! ### Python-faithful string primitives -/

/-- ASCII whitespace as recognised by Python's `str.strip` and the regex
class `\s` (space, tab, newline, carriage return, vertical tab, form feed). -/
def pyWs (c : Char) : Bool :=
  c = ' ' || c = '\t' || c = '\n' || c = '\r' || c = '\x0b' || c = '\x0c'

/-- `str.strip()` on the character list: drop leading and trailing whitespace. -/
def stripChars (cs : List Char) : List Char :=
  ((cs.dropWhile pyWs).reverse.dropWhile pyWs).reverse

/-- `str.strip()`. -/
def pyStrip (s : String) : String := ⟨stripChars s.data⟩

/-- `str.lower()` (ASCII, which covers every string this program compares). -/
def pyLower (s : String) : String := ⟨s.data.map Char.toLower⟩

/-- Substring test, Python's `needle in hay`. -/
def hasSub (hay needle : List Char) : Bool :=
  hay.tails.any (fun t => needle.isPrefixOf t)

/-- First occurrence split, Python's `hay.split(needle, 1)` when the needle
occurs: returns the text before and after the first occurrence. -/
def splitOnce : List Char → List Char → Option (List Char × List Char)
  | hay, needle =>
    if needle.isPrefixOf hay then some ([], hay.drop needle.length)
    else
      match hay with
      | [] => none
      | c :: rest =>
        match splitOnce rest needle with
        | some (a, b) => some (c :: a, b)
        | none => none

/-- Line-boundary characters of Python's `str.splitlines`. -/
def isLineBreakChar (c : Char) : Bool :=
  c = '\n' || c = '\r' || c = '\x0b' || c = '\x0c' ||
  c = '\x1c' || c = '\x1d' || c = '\x1e' || c = '\x85' ||
  c = '\u2028' || c = '\u2029'

/-- Collapse the two-character boundary `\r\n` into a single `\n` so that a
single-character split reproduces `str.splitlines`. -/
def normNl : List Char → List Char
  | '\r' :: '\n' :: rest => '\n' :: normNl rest
  | c :: rest => c :: normNl rest
  | [] => []

/-- Split a character list at every character satisfying `p`, dropping the
separators (always returns at least one, possibly empty, part). -/
def splitEvery (p : Char → Bool) (cs : List Char) : List (List Char) :=
  cs.foldr
    (fun c acc =>
      match acc with
      | [] => if p c then [[], []] else [[c]]
      | l :: ls => if p c then [] :: l :: ls else (c :: l) :: ls)
    [[]]

/-- Python's `str.splitlines`: no line for the empty string, and a trailing
line boundary does not open an extra empty line. -/
def pySplitlines (cs : List Char) : List (List Char) :=
  match cs with
  | [] => []
  | _ =>
    let n := normNl cs
    let parts := splitEvery isLineBreakChar n
    if isLineBreakChar (n.getLastD ' ') then parts.dropLast else parts

/-! ### Citation extraction (`agent_service.extract_citations`) -/

/-- Ordered-dictionary de-duplication: keep the first occurrence of every
string, preserving first-seen order (Python `OrderedDict` keyed insertion). -/
def dedupFirst (l : List String) : List String :=
  l.foldl (fun acc c => if acc.contains c then acc else acc ++ [c]) []

/-- `agent_service.extract_citations`: if the text contains the marker
`"Citations:"`, scan everything after its first occurrence line by line,
keep the stripped remainder of each line starting with `"-"`, and drop any
entry containing `"Page N/A"`. -/
def extract_citations (text : String) : List String :=
  match splitOnce text.data "Citations:".data with
  | none => []
  | some (_, part) =>
    (pySplitlines part).filterMap (fun lraw =>
      match stripChars lraw with
      | '-' :: restL =>
        let c := stripChars restL
        if hasSub c "Page N/A".data then none else some ⟨c⟩
      | _ => none)

/-! ### Stripping a hallucinated citation block
(`agent_service.remove_existing_citations`, regex `\n\s*Citations\s*:\s*\n`) -/

/-- Greedy match of the regex tail `\s*\n` at the head of the list: the
longest whitespace run whose final character is a newline.  Returns the
number of characters consumed. -/
def wsNlGreedy : List Char → Option Nat
  | [] => none
  | c :: rest =>
    if pyWs c then
      match wsNlGreedy rest with
      | some n => some (n + 1)
      | none => if c = '\n' then some 1 else none
    else none

/-- Match the whole pattern `\n\s*Citations\s*:\s*\n` at the head of the
list (greedy, as the backtracking regex engine resolves it), returning the
matched length. -/
def matchMarkerLen : List Char → Option Nat
  | '\n' :: r1 =>
    let w1 := (r1.takeWhile pyWs).length
    let r2 := r1.drop w1
    if "Citations".data.isPrefixOf r2 then
      let r3 := r2.drop 9
      let w2 := (r3.takeWhile pyWs).length
      let r4 := r3.drop w2
      match r4 with
      | ':' :: r5 =>
        match wsNlGreedy r5 with
        | some n => some (1 + w1 + 9 + w2 + 1 + n)
        | none => none
      | _ => none
    else none
  | _ => none

/-- Leftmost match of the citation-block marker: start index and length. -/
def findMarker : List Char → Option (Nat × Nat)
  | [] => none
  | c :: rest =>
    match matchMarkerLen (c :: rest) with
    | some n => some (0, n)
    | none =>
      match findMarker rest with
      | some (i, n) => some (i + 1, n)
      | none => none

/-- `agent_service.remove_existing_citations`: split the answer at the first
match of `\n\s*Citations\s*:\s*\n`, keep the part before it, and strip it. -/
def remove_existing_citations (answer : String) : String :=
  match findMarker answer.data with
  | some (i, _) => pyStrip ⟨answer.data.take i⟩
  | none => pyStrip answer

/-! ### Retrieval (`agent_service.search_pdf_from_db`) -/

/-- A Python metadata value as it occurs in this program: an integer
(`page`, `chunk_id`) or a string (`source`, `doc_type`, `db_name`, the
`"N/A"` page sentinel). -/
inductive MetaVal
  | int (n : Int)
  | str (s : String)
deriving DecidableEq, Repr

/-- Python `str(value)` on a metadata value, as used by f-strings. -/
def MetaVal.render : MetaVal → String
  | .int n => toString n
  | .str s => s

/-- A langchain `Document`: the chunk text plus its metadata dictionary
(an ordered association list, as Python dictionaries preserve insertion
order). -/
structure Doc where
  page_content : String
  metadata : List (String × MetaVal)
deriving DecidableEq, Repr

/-- `meta.get(key, default)`. -/
def metaGetD (m : List (String × MetaVal)) (k : String) (d : MetaVal) : MetaVal :=
  match m.lookup k with
  | some v => v
  | none => d

/-- The retrieval result dictionary `{"context": ..., "citations": [...]}`. -/
structure RetrievalResult where
  context : String
  citations : List String
deriving DecidableEq, Repr

/-- The list-comprehension line of `search_pdf_from_db`:
`[doc for doc, score in docs_with_scores if score < 0.38][:k]`, applied to
the candidates fetched with the fixed over-fetch count 12.  The Chroma
vector store is modelled by its `similarity_search_with_score` function
`query ↦ k ↦ scored candidates` (distance scores as rationals). -/
def search_selected_docs (vs : String → Nat → List (Doc × ℚ)) (query : String)
    (k : Nat) : List Doc :=
  (((vs query 12).filter (fun ds => ds.2 < mkRat 38 100)).map Prod.fst).take k

/-- The citation a chunk contributes, if any: only when its `page` metadata
is an integer, converted to 1-based and rendered `"{source}, Page {page}"`. -/
def citeOf (d : Doc) : Option String :=
  match d.metadata.lookup "page" with
  | some (.int n) =>
    some ((metaGetD d.metadata "source" (.str "Unknown")).render ++
      ", Page " ++ toString (n + 1))
  | _ => none

/-- The context block a chunk contributes:
`"DB: {db_name}\nSource: {source}, Page: {page-or-N/A}\n{text}"` with the
page shown 1-based when it is an integer and `"N/A"` otherwise. -/
def contextBlock (d : Doc) : String :=
  let pageStr :=
    match d.metadata.lookup "page" with
    | some (.int n) => toString (n + 1)
    | _ => "N/A"
  "DB: " ++ (metaGetD d.metadata "db_name" (.str "UnknownDB")).render ++
    "\nSource: " ++ (metaGetD d.metadata "source" (.str "Unknown")).render ++
    ", Page: " ++ pageStr ++ "\n" ++ d.page_content

/-- `agent_service.search_pdf_from_db`: fetch 12 scored candidates, keep
those with distance strictly below 0.38, truncate to `k`, then build the
joined context blocks and the first-seen-deduplicated citation list (the
Python loop fills an `OrderedDict` in candidate order).  The source defaults
`k` to 8; callers here always pass `k` explicitly. -/
def search_pdf_from_db (vs : String → Nat → List (Doc × ℚ)) (query : String)
    (k : Nat) : RetrievalResult :=
  let docs := search_selected_docs vs query k
  if docs.isEmpty then ⟨"", []⟩
  else
    ⟨String.intercalate "\n\n---\n\n" (docs.map contextBlock),
     dedupFirst (docs.filterMap citeOf)⟩

/-! ### Tool-output formatting and the answer assembler
(`agent_service.format_context_with_citations`, `agent_service.ask_agent`) -/

/-- `agent_service.format_context_with_citations`: strip the context, return
`""` when it is empty, otherwise append the `Citations:` block only when at
least one citation exists. -/
def format_context_with_citations (res : RetrievalResult) : String :=
  let context := pyStrip res.context
  if context = "" then ""
  else
    let citation_block :=
      if res.citations.isEmpty then ""
      else "\n\nCitations:\n" ++
        String.intercalate "\n" (res.citations.map (fun c => "- " ++ c))
    context ++ citation_block

/-- The reasoning loop's result (`agent_executor.invoke`): the final output
text and the `intermediate_steps` list of (action, observation-text) pairs,
one per capability invocation, in invocation order. -/
structure LoopResult where
  output : String
  intermediate_steps : List (String × String)

/-- The externally observable calls `ask_agent` makes, recorded in order. -/
inductive AgentEvent
  | styleQuery (question : String)
  | loopInvoke (question style_examples : String)
deriving DecidableEq, Repr

/-- The fixed empty-knowledge-base message of `ask_agent`. -/
def emptyKbMsg : String := "Knowledge base is empty (no Chroma DBs found)."

/-- `agent_service.ask_agent`: with an empty registry return the fixed
message at once; otherwise retrieve style examples, invoke the reasoning
loop, strip any citation block the loop printed itself, re-derive citations
from the observed tool invocations (first-seen deduplication across
invocations in order), and append at most one `Citations:` block, only when
at least one citation was recovered.  The external style retriever and the
reasoning loop are explicit parameters; the second component records which
of them were invoked. -/
def ask_agent (vectorstores : List String) (retrieveStyle : String → String)
    (runAgent : String → String → LoopResult) (question : String) :
    String × List AgentEvent :=
  if vectorstores.isEmpty then (emptyKbMsg, [])
  else
    let style_examples := retrieveStyle question
    let result := runAgent question style_examples
    let answer := remove_existing_citations result.output
    let citations :=
      dedupFirst (result.intermediate_steps.flatMap
        (fun step => extract_citations step.2))
    let answer' :=
      if citations.isEmpty then answer
      else answer ++ "\n\nCitations:\n" ++
        String.intercalate "\n" (citations.map (fun c => "- " ++ c))
    (answer', [.styleQuery question, .loopInvoke question style_examples])

/-! ### Ingestion naming (`chroma1.sanitize_name` and the `db_name` line) -/

/-- `pathlib`'s suffix rule: the last `.` of the name yields a suffix only
when it is neither the first nor the last character. -/
def lastDotIdx (cs : List Char) : Option Nat :=
  match cs.reverse.findIdx? (fun c => c = '.') with
  | some j => some (cs.length - 1 - j)
  | none => none

/-- `Path(name).stem`: the name without its suffix. -/
def pyStem (name : String) : String :=
  match lastDotIdx name.data with
  | some i => if 0 < i ∧ i < name.data.length - 1 then ⟨name.data.take i⟩ else name
  | none => name

/-- `Path(name).suffix`: the extension including the dot, or `""`. -/
def pySuffix (name : String) : String :=
  match lastDotIdx name.data with
  | some i => if 0 < i ∧ i < name.data.length - 1 then ⟨name.data.drop i⟩ else ""
  | none => ""

/-- The character class `[a-zA-Z0-9_-]` kept by `sanitize_name`. -/
def allowedChar (c : Char) : Bool :=
  ('a' ≤ c && c ≤ 'z') || ('A' ≤ c && c ≤ 'Z') || ('0' ≤ c && c ≤ '9') ||
    c = '_' || c = '-'

/-- `chroma1.sanitize_name`: take the filename stem and replace every
character outside `[a-zA-Z0-9_-]` with `_` (the single-character regex
substitution acts character by character). -/
def sanitize_name (name : String) : String :=
  ⟨(pyStem name).data.map (fun c => if allowedChar c then c else '_')⟩

/-- The index-name line of the ingestion loop:
`db_name = f"chroma_{sanitize_name(filename)}"`. -/
def db_name (filename : String) : String :=
  "chroma_" ++ sanitize_name filename

/-! ### Retry with backoff (`chroma1.create_chroma_with_retry`) -/

/-- One outcome of an attempted `Chroma.from_documents` embedding call:
success, or an exception carrying a message. -/
inductive CallOutcome
  | ok
  | err (msg : String)
deriving DecidableEq, Repr

/-- The overload test of the retry loop: the lowercased exception message
contains `"429"`, `"nocapacity"` or `"rate limit"`. -/
def isOverloadMsg (msg : String) : Bool :=
  let m := (pyLower msg).data
  hasSub m "429".data || hasSub m "nocapacity".data || hasSub m "rate limit".data

/-- The observable outcome of the retry loop: index creation succeeded, or
the exception was re-raised; in both cases the list of backoff delays
(seconds slept, in order) is recorded. -/
inductive RetryResult
  | success (delays : List Nat)
  | raised (msg : String) (delays : List Nat)
  | pending (delays : List Nat)
deriving DecidableEq, Repr

/-- The `while True` body of `create_chroma_with_retry`, consuming one call
outcome per iteration; `pending` reports an exhausted outcome sequence (the
real loop would attempt another call). -/
def retryGo (max_retries : Nat) : List CallOutcome → Nat → List Nat → RetryResult
  | [], _, ds => .pending ds
  | .ok :: _, _, ds => .success ds
  | .err m :: rest, attempt, ds =>
    if isOverloadMsg m then
      if attempt + 1 > max_retries then .raised m ds
      else retryGo max_retries rest (attempt + 1) (ds ++ [10 * (attempt + 1)])
    else .raised m ds

/-- `chroma1.create_chroma_with_retry` (the source defaults `max_retries`
to 8 and hard-codes `base_delay = 10` in `wait_time = 10 * attempt`),
driven by the sequence of outcomes the embedding backend would produce. -/
def create_chroma_with_retry (outcomes : List CallOutcome) (max_retries : Nat) :
    RetryResult :=
  retryGo max_retries outcomes 0 []

/-! ### Chunk metadata (`chroma1` ingestion loop, lines 120-137) -/

/-- A page-level or chunk-level langchain document during ingestion. -/
structure PageDoc where
  text : String
  metadata : List (String × MetaVal)
deriving DecidableEq, Repr

/-- `d[k] = v` on an insertion-ordered Python dictionary: overwrite in
place when the key exists, append otherwise. -/
def dictSet (m : List (String × MetaVal)) (k : String) (v : MetaVal) :
    List (String × MetaVal) :=
  if m.any (fun p => p.1 = k) then
    m.map (fun p => if p.1 = k then (k, v) else p)
  else m ++ [(k, v)]

/-- `d.update({...})`: apply each key/value pair in order. -/
def dictUpdate (m kvs : List (String × MetaVal)) : List (String × MetaVal) :=
  kvs.foldl (fun acc kv => dictSet acc kv.1 kv.2) m

/-- The body of the metadata loop for the chunk at position `i`:
`c.metadata.update({"source": ..., "doc_type": ..., "db_name": ...,
"chunk_id": i})`, then `c.metadata["page"] = "N/A"` when no page key
exists. -/
def attachOne (filename doc_type dbn : String) (i : Nat) (c : PageDoc) :
    PageDoc :=
  let m := dictUpdate c.metadata
    [("source", .str filename), ("doc_type", .str doc_type),
     ("db_name", .str dbn), ("chunk_id", .int i)]
  let m := if m.any (fun p => p.1 = "page") then m else m ++ [("page", .str "N/A")]
  ⟨c.text, m⟩

/-- `for i, c in enumerate(chunks): ...` starting from index `i`. -/
def attachFrom (filename doc_type dbn : String) :
    Nat → List PageDoc → List PageDoc
  | _, [] => []
  | i, c :: cs =>
    attachOne filename doc_type dbn i c :: attachFrom filename doc_type dbn (i + 1) cs

/-- The whole chunk-metadata loop over a document's chunks. -/
def attach_chunk_metadata (filename doc_type dbn : String)
    (chunks : List PageDoc) : List PageDoc :=
  attachFrom filename doc_type dbn 0 chunks

/-! ### File loading and the ingestion loop
(`chroma1.load_file_with_real_pages` and the `for filename` loop) -/

/-- An ingestion input: the filename together with the pages the PDF loader
would yield for it (a 0-byte file yields no pages; a DOCX file is converted
to PDF first, so its pages are likewise whatever the loader yields). -/
structure InputFile where
  filename : String
  pages : List PageDoc
deriving Repr

/-- `chroma1.load_file_with_real_pages`: dispatch on the lowercased
extension; `.pdf` and `.docx` load pages (DOCX through the PDF conversion),
anything else yields the empty sequence and no doc type. -/
def load_file_with_real_pages (f : InputFile) : List PageDoc × Option String :=
  let ext := pyLower (pySuffix f.filename)
  if ext = ".pdf" then (f.pages, some "pdf")
  else if ext = ".docx" then (f.pages, some "docx")
  else ([], none)

/-- What the ingestion loop does with one file, observably. -/
inductive IngestEvent
  | skippedExt (filename : String)
  | skippedEmpty (filename : String)
  | created (dbn : String) (chunks : List PageDoc)
deriving DecidableEq, Repr

/-- The `for filename in os.listdir(...)` ingestion loop of `chroma1`:
skip files whose lowercased name ends in neither `.pdf` nor `.docx`; load
the rest, skipping those that load no pages; chunk (the external
`RecursiveCharacterTextSplitter` is the parameter `split`), attach
metadata, and create the per-document index.  Index creation itself is the
retried embedding call, out of scope of this loop's events. -/
def processFiles (split : List PageDoc → List PageDoc) :
    List InputFile → List IngestEvent
  | [] => []
  | f :: rest =>
    if !(".pdf".data.isSuffixOf (pyLower f.filename).data ||
         ".docx".data.isSuffixOf (pyLower f.filename).data) then
      .skippedExt f.filename :: processFiles split rest
    else
      let loaded := load_file_with_real_pages f
      if loaded.1.isEmpty then
        .skippedEmpty f.filename :: processFiles split rest
      else
        let dbn := db_name f.filename
        let chunks := attach_chunk_metadata f.filename (loaded.2.getD "") dbn
          (split loaded.1)
        .created dbn chunks :: processFiles split rest

/-! ### Concrete fixtures used by witness theorems -/

/-- A retrieved chunk whose `page` metadata is a genuine integer. -/
def docIntPage : Doc :=
  ⟨"text one", [("source", .str "a.pdf"), ("page", .int 2),
    ("db_name", .str "chroma_a")]⟩

/-- A retrieved chunk whose `page` metadata is the `"N/A"` sentinel. -/
def docNaPage : Doc :=
  ⟨"text two", [("source", .str "a.pdf"), ("page", .str "N/A"),
    ("db_name", .str "chroma_a")]⟩

/-! ### Helper lemmas about `dedupFirst` -/

/-- The `OrderedDict` insertion step, rephrased through list membership. -/
def memStep (acc : List String) (c : String) : List String :=
  if c ∈ acc then acc else acc ++ [c]

theorem dedupFirst_eq_memFold (l acc : List String) :
    l.foldl (fun acc c => if acc.contains c then acc else acc ++ [c]) acc =
      l.foldl memStep acc := by
  have hf : (fun (acc : List String) c =>
      if acc.contains c then acc else acc ++ [c]) = memStep := by
    funext acc c
    simp [memStep]
  rw [hf]

theorem dedupFirst_aux_mem (l acc : List String) (c : String)
    (h : c ∈ l.foldl memStep acc) :
    c ∈ acc ∨ c ∈ l := by
  induction l generalizing acc with
  | nil => exact Or.inl h
  | cons x xs ih =>
    simp only [List.foldl_cons, memStep] at h
    rcases ih _ h with h1 | h1
    · by_cases hx : x ∈ acc
      · simp only [hx, if_true] at h1
        exact Or.inl h1
      · simp only [hx, if_false] at h1
        rcases List.mem_append.1 h1 with h2 | h2
        · exact Or.inl h2
        · simp only [List.mem_singleton] at h2
          exact Or.inr (h2 ▸ List.mem_cons_self x xs)
    · exact Or.inr (List.mem_cons_of_mem x h1)

theorem dedupFirst_aux_mem_of (l acc : List String) (c : String)
    (h : c ∈ acc ∨ c ∈ l) :
    c ∈ l.foldl memStep acc := by
  induction l generalizing acc with
  | nil => simpa using h
  | cons x xs ih =>
    simp only [List.foldl_cons, memStep]
    rcases h with h1 | h1
    · refine ih _ (Or.inl ?_)
      by_cases hx : x ∈ acc
      · simpa [hx] using h1
      · simp only [hx, if_false]
        exact List.mem_append.2 (Or.inl h1)
    · rcases List.mem_cons.1 h1 with h2 | h2
      · refine ih _ (Or.inl ?_)
        by_cases hx : x ∈ acc
        · simp only [hx, if_true]
          exact h2 ▸ hx
        · simp [hx, h2]
      · exact ih _ (Or.inr h2)

theorem dedupFirst_aux_nodup (l acc : List String) (hacc : acc.Nodup) :
    (l.foldl memStep acc).Nodup := by
  induction l generalizing acc with
  | nil => exact hacc
  | cons x xs ih =>
    simp only [List.foldl_cons, memStep]
    by_cases hx : x ∈ acc
    · simpa [hx] using ih _ hacc
    · simp only [hx, if_false]
      refine ih _ ?_
      refine List.Nodup.append hacc (List.nodup_singleton x) ?_
      intro a ha hb
      simp only [List.mem_singleton] at hb
      exact hx (hb ▸ ha)

theorem dedupFirst_aux_sublist (l acc : List String) :
    ∃ s, l.foldl memStep acc = acc ++ s ∧ s.Sublist l := by
  induction l generalizing acc with
  | nil => exact ⟨[], by simp⟩
  | cons x xs ih =>
    simp only [List.foldl_cons, memStep]
    by_cases hx : x ∈ acc
    · rcases ih acc with ⟨s, hs, hsub⟩
      exact ⟨s, by simpa [hx] using hs, hsub.cons x⟩
    · rcases ih (acc ++ [x]) with ⟨s, hs, hsub⟩
      refine ⟨x :: s, ?_, hsub.cons₂ x⟩
      simp only [hx, if_false]
      simpa [List.append_assoc] using hs

/-- Membership in `dedupFirst` is membership in the original list. -/
theorem mem_dedupFirst (l : List String) (c : String) :
    c ∈ dedupFirst l ↔ c ∈ l := by
  rw [dedupFirst, dedupFirst_eq_memFold]
  constructor
  · intro h
    rcases dedupFirst_aux_mem l [] c h with h1 | h1
    · simp at h1
    · exact h1
  · intro h
    exact dedupFirst_aux_mem_of l [] c (Or.inr h)

/-- `dedupFirst` never repeats a string. -/
theorem dedupFirst_nodup (l : List String) : (dedupFirst l).Nodup := by
  rw [dedupFirst, dedupFirst_eq_memFold]
  exact dedupFirst_aux_nodup l [] List.nodup_nil

/-- `dedupFirst` is a subsequence of its input: it keeps first occurrences
in first-seen order. -/
theorem dedupFirst_sublist (l : List String) : (dedupFirst l).Sublist l := by
  rw [dedupFirst, dedupFirst_eq_memFold]
  rcases dedupFirst_aux_sublist l [] with ⟨s, hs, hsub⟩
  simpa [hs] using hsub

/-- The retry loop on `j` consecutive overload errors followed by success:
provided the attempt budget is not exceeded, it succeeds and sleeps
`10 * (attempt)` seconds before each retry. -/
theorem retryGo_overload_then_ok (m : String) (hm : isOverloadMsg m = true) :
    ∀ (j a : Nat) (ds : List Nat), a + j ≤ 8 →
      retryGo 8 (List.replicate j (.err m) ++ [.ok]) a ds =
        .success (ds ++ (List.range j).map (fun i => 10 * (a + i + 1))) := by
  intro j
  induction j with
  | zero =>
    intro a ds _
    simp [retryGo]
  | succ j ih =>
    intro a ds h
    have h2 : ¬ (a + 1 > 8) := by omega
    simp only [List.replicate_succ, List.cons_append, retryGo, hm, if_true,
      h2, if_false, List.append_eq]
    rw [ih (a + 1) (ds ++ [10 * (a + 1)]) (by omega)]
    congr 1
    rw [List.range_succ_eq_map, List.map_cons, List.map_map,
      List.append_assoc]
    have hfun : ((fun i => 10 * (a + i + 1)) ∘ (fun i => i + 1)) =
        (fun i => 10 * (a + 1 + i + 1)) := by
      funext i
      simp only [Function.comp_apply]
      omega
    simp [hfun]

/-- The metadata loop processes the chunk at position `i` with
`attachOne` at counter `start + i`. -/
theorem attachFrom_get (filename dt dbn : String) :
    ∀ (chunks : List PageDoc) (start i : Nat),
      (attachFrom filename dt dbn start chunks)[i]? =
        (chunks[i]?).map (attachOne filename dt dbn (start + i)) := by
  intro chunks
  induction chunks with
  | nil =>
    intro start i
    simp [attachFrom]
  | cons c cs ih =>
    intro start i
    cases i with
    | zero => simp [attachFrom]
    | succ i =>
      have harith : start + 1 + i = start + (i + 1) := by omega
      simp [attachFrom, ih (start + 1) i, harith]

/-- The metadata loop keeps the number of chunks. -/
theorem attachFrom_length (filename dt dbn : String) :
    ∀ (chunks : List PageDoc) (start : Nat),
      (attachFrom filename dt dbn start chunks).length = chunks.length := by
  intro chunks
  induction chunks with
  | nil =>
    intro start
    simp [attachFrom]
  | cons c cs ih =>
    intro start
    simp [attachFrom, ih (start + 1)]

/-! ### Claim theorems -/

/-- C2: `search_pdf_from_db` keeps a fetched candidate exactly when its
distance score is strictly below the 0.38 threshold — a candidate scoring
at or above 0.38 never survives — and then truncates the survivors, in
their original order, to at most `k`: the kept scored candidates all score
below 0.38, form a subsequence of the fetched list (original order), number
at most `k`, are all of the below-threshold candidates whenever those fit
in `k`, and the retrieval result is exactly the one computed from them. -/
theorem search_threshold_filter (dws : List (Doc × ℚ)) (q : String) (k : Nat) :
    (∀ p ∈ (dws.filter (fun ds => ds.2 < mkRat 38 100)).take k,
      p.2 < mkRat 38 100) ∧
    ((dws.filter (fun ds => ds.2 < mkRat 38 100)).take k).Sublist dws ∧
    ((dws.filter (fun ds => ds.2 < mkRat 38 100)).take k).length ≤ k ∧
    ((dws.filter (fun ds => ds.2 < mkRat 38 100)).length ≤ k →
      (dws.filter (fun ds => ds.2 < mkRat 38 100)).take k =
        dws.filter (fun ds => ds.2 < mkRat 38 100)) ∧
    search_selected_docs (fun _ _ => dws) q k =
      ((dws.filter (fun ds => ds.2 < mkRat 38 100)).take k).map Prod.fst ∧
    search_pdf_from_db (fun _ _ => dws) q k =
      search_pdf_from_db
        (fun _ _ => (dws.filter (fun ds => ds.2 < mkRat 38 100)).take k) q k := by
  refine ⟨?_, ?_, ?_, ?_, ?_, ?_⟩
  · intro p hp
    have hmem := List.mem_of_mem_take hp
    simpa using List.of_mem_filter hmem
  · exact (List.take_sublist _ _).trans (List.filter_sublist dws)
  · exact List.length_take_le k _
  · intro hlen
    exact List.take_of_length_le hlen
  · simp [search_selected_docs, List.map_take]
  · have hkept : ((dws.filter (fun ds => ds.2 < mkRat 38 100)).take k).filter
        (fun ds => ds.2 < mkRat 38 100) =
        (dws.filter (fun ds => ds.2 < mkRat 38 100)).take k := by
      refine List.filter_eq_self.2 ?_
      intro p hp
      have h1 : p ∈ dws.filter (fun ds => ds.2 < mkRat 38 100) :=
        List.mem_of_mem_take hp
      exact (List.mem_filter.1 h1).2
    have hdocs : search_selected_docs
        (fun _ _ => (dws.filter (fun ds => ds.2 < mkRat 38 100)).take k) q k =
        search_selected_docs (fun _ _ => dws) q k := by
      simp [search_selected_docs, hkept, List.take_take]
    simp only [search_pdf_from_db, hdocs]

/-- C2 witness: instantiated at a concrete candidate list, the membership
and the fits-in-budget hypotheses discharged there. -/
theorem search_threshold_filter_witness :
    (docIntPage, mkRat 1 10).2 < mkRat 38 100 ∧
    ([(docIntPage, mkRat 1 10), (docNaPage, mkRat 1 2)].filter
        (fun ds => ds.2 < mkRat 38 100)).take 8 =
      [(docIntPage, mkRat 1 10), (docNaPage, mkRat 1 2)].filter
        (fun ds => ds.2 < mkRat 38 100) :=
  ⟨(search_threshold_filter [(docIntPage, mkRat 1 10), (docNaPage, mkRat 1 2)]
      "q" 8).1 (docIntPage, mkRat 1 10) (by decide),
   (search_threshold_filter [(docIntPage, mkRat 1 10), (docNaPage, mkRat 1 2)]
      "q" 8).2.2.2.1 (by decide)⟩

/-- C10: the retrieval always fetches exactly 12 candidates from the index
regardless of the caller's `k`: the result depends only on the index's
answer to the fixed 12-candidate fetch, the selected chunks never number
more than 12 (the index returns at most as many candidates as asked), and
for every `k ≥ 12` the result coincides with the `k = 12` result, so a
caller cannot obtain more than 12 chunks per index. -/
theorem search_overfetch_cap (vs vs' : String → Nat → List (Doc × ℚ))
    (q : String) (k : Nat) :
    (vs q 12 = vs' q 12 →
      search_pdf_from_db vs q k = search_pdf_from_db vs' q k) ∧
    ((∀ q' n, (vs q' n).length ≤ n) →
      (search_selected_docs vs q k).length ≤ 12) ∧
    ((∀ q' n, (vs q' n).length ≤ n) → 12 ≤ k →
      search_pdf_from_db vs q k = search_pdf_from_db vs q 12) := by
  refine ⟨?_, ?_, ?_⟩
  · intro h
    simp only [search_pdf_from_db, search_selected_docs, h]
  · intro hlen
    calc (search_selected_docs vs q k).length
        ≤ (((vs q 12).filter (fun ds => ds.2 < mkRat 38 100)).map Prod.fst).length := by
          simp only [search_selected_docs, List.length_take]
          exact Nat.min_le_right _ _
      _ ≤ (vs q 12).length := by
          simp only [List.length_map]
          exact List.length_filter_le _ (vs q 12)
      _ ≤ 12 := hlen q 12
  · intro hlen hk
    have hfl : (((vs q 12).filter (fun ds => ds.2 < mkRat 38 100)).map
        Prod.fst).length ≤ 12 := by
      calc (((vs q 12).filter (fun ds => ds.2 < mkRat 38 100)).map Prod.fst).length
          ≤ (vs q 12).length := by
            simpa using List.length_filter_le _ (vs q 12)
        _ ≤ 12 := hlen q 12
    have hdocs : search_selected_docs vs q k = search_selected_docs vs q 12 := by
      simp only [search_selected_docs]
      rw [List.take_of_length_le (hfl.trans hk), List.take_of_length_le hfl]
    simp only [search_pdf_from_db, hdocs]

/-- C10 witness: instantiated at a concrete index whose search returns at
most as many candidates as asked, with `k = 15 > 12`. -/
theorem search_overfetch_cap_witness :
    search_pdf_from_db (fun _ n => [(docIntPage, mkRat 1 10)].take n) "q" 15 =
      search_pdf_from_db (fun _ n => [(docIntPage, mkRat 1 10)].take n) "q" 12 :=
  (search_overfetch_cap (fun _ n => [(docIntPage, mkRat 1 10)].take n)
      (fun _ n => [(docIntPage, mkRat 1 10)].take n) "q" 15).2.2
    (fun q' n => List.length_take_le n _) (by decide)

/-- C3: a retrieved chunk yields a citation exactly when its `page`
metadata is a genuine integer; every emitted citation renders that page
1-based as `"{source}, Page {page}"` (so its page part is never the
literal `"N/A"`); and chunks whose page is not an integer still contribute
their context block (shown with page `"N/A"` inside `contextBlock`) even
though they contribute no citation. -/
theorem search_citation_int_page (dws : List (Doc × ℚ)) (q : String) (k : Nat) :
    (search_pdf_from_db (fun _ _ => dws) q k).citations =
      dedupFirst ((search_selected_docs (fun _ _ => dws) q k).filterMap citeOf) ∧
    (∀ d : Doc, (citeOf d).isSome ↔
      ∃ n : Int, d.metadata.lookup "page" = some (.int n)) ∧
    (∀ c ∈ (search_pdf_from_db (fun _ _ => dws) q k).citations,
      ∃ d ∈ search_selected_docs (fun _ _ => dws) q k, ∃ n : Int,
        d.metadata.lookup "page" = some (.int n) ∧
        c = (metaGetD d.metadata "source" (.str "Unknown")).render ++
          ", Page " ++ toString (n + 1)) ∧
    (search_selected_docs (fun _ _ => dws) q k ≠ [] →
      (search_pdf_from_db (fun _ _ => dws) q k).context =
        String.intercalate "\n\n---\n\n"
          ((search_selected_docs (fun _ _ => dws) q k).map contextBlock)) := by
  refine ⟨?_, ?_, ?_, ?_⟩
  · by_cases h : (search_selected_docs (fun _ _ => dws) q k).isEmpty
    · have h' : search_selected_docs (fun _ _ => dws) q k = [] :=
        List.isEmpty_iff.1 h
      simp [search_pdf_from_db, h, h', dedupFirst]
    · simp [search_pdf_from_db, h]
  · intro d
    unfold citeOf
    rcases hpage : d.metadata.lookup "page" with _ | v
    · simp
    · rcases v with n | s <;> simp
  · intro c hc
    have hc1 : c ∈ (search_selected_docs (fun _ _ => dws) q k).filterMap citeOf := by
      have hcit : (search_pdf_from_db (fun _ _ => dws) q k).citations =
          dedupFirst ((search_selected_docs (fun _ _ => dws) q k).filterMap citeOf) := by
        by_cases h : (search_selected_docs (fun _ _ => dws) q k).isEmpty
        · have h' : search_selected_docs (fun _ _ => dws) q k = [] :=
            List.isEmpty_iff.1 h
          simp [search_pdf_from_db, h, h', dedupFirst]
        · simp [search_pdf_from_db, h]
      rw [hcit] at hc
      exact (mem_dedupFirst _ c).1 hc
    rcases List.mem_filterMap.1 hc1 with ⟨d, hd, hcite⟩
    refine ⟨d, hd, ?_⟩
    unfold citeOf at hcite
    rcases hpage : d.metadata.lookup "page" with _ | v
    · rw [hpage] at hcite
      simp at hcite
    · rcases v with n | s
      · rw [hpage] at hcite
        simp only [Option.some.injEq] at hcite
        exact ⟨n, rfl, hcite.symm⟩
      · rw [hpage] at hcite
        simp at hcite
  · intro hne
    have h : (search_selected_docs (fun _ _ => dws) q k).isEmpty = false := by
      simpa [List.isEmpty_iff] using hne
    simp [search_pdf_from_db, h]

/-- C3 witness: instantiated at a concrete candidate list containing an
integer-page chunk and an `"N/A"`-page chunk; the emitted citation is the
1-based rendering for the integer-page chunk. -/
theorem search_citation_int_page_witness :
    ∃ d ∈ search_selected_docs
        (fun _ _ => [(docIntPage, mkRat 1 10), (docNaPage, mkRat 2 10)]) "q" 8,
      ∃ n : Int, d.metadata.lookup "page" = some (.int n) ∧
        "a.pdf, Page 3" = (metaGetD d.metadata "source" (.str "Unknown")).render ++
          ", Page " ++ toString (n + 1) :=
  (search_citation_int_page [(docIntPage, mkRat 1 10), (docNaPage, mkRat 2 10)]
    "q" 8).2.2.1 "a.pdf, Page 3" (by decide)

/-- C1: the final citation list `ask_agent` derives from the reasoning
loop's (invocation, returned text) pairs — each returned text mined by
`extract_citations` after the `"Citations:"` marker for `"-"` lines with
`"Page N/A"` entries skipped — never repeats a string, contains exactly the
strings extracted from some invocation, preserves first-seen occurrence
order across invocations in invocation order (a subsequence of the
concatenated extractions), and on the spec's two-invocation example
(citations `A, Page 3 / B, Page 1` then `B, Page 1 / C, Page 2`, returned
through the real tool formatter) the assembled answer carries exactly the
block `A, Page 3 / B, Page 1 / C, Page 2`. -/
theorem ask_agent_citation_pipeline (steps : List (String × String)) :
    (dedupFirst (steps.flatMap (fun s => extract_citations s.2))).Nodup ∧
    (∀ c, c ∈ dedupFirst (steps.flatMap (fun s => extract_citations s.2)) ↔
      ∃ s ∈ steps, c ∈ extract_citations s.2) ∧
    (dedupFirst (steps.flatMap (fun s => extract_citations s.2))).Sublist
      (steps.flatMap (fun s => extract_citations s.2)) ∧
    (ask_agent ["chroma_a"] (fun _ => "")
      (fun _ _ => ⟨"Answer.",
        [("tool1", format_context_with_citations ⟨"ctx1", ["A, Page 3", "B, Page 1"]⟩),
         ("tool2", format_context_with_citations ⟨"ctx2", ["B, Page 1", "C, Page 2"]⟩)]⟩)
      "q").1 =
      "Answer.\n\nCitations:\n- A, Page 3\n- B, Page 1\n- C, Page 2" := by
  refine ⟨dedupFirst_nodup _, ?_, dedupFirst_sublist _, by decide⟩
  intro c
  exact (mem_dedupFirst _ c).trans List.mem_flatMap

/-- C1 witness: the membership characterisation instantiated at the
concrete two-invocation example. -/
theorem ask_agent_citation_pipeline_witness :
    ∃ s ∈ [("tool1", "c\n\nCitations:\n- A, Page 3\n- B, Page 1"),
           ("tool2", "c\n\nCitations:\n- B, Page 1\n- C, Page 2")],
      "C, Page 2" ∈ extract_citations s.2 :=
  ((ask_agent_citation_pipeline
      [("tool1", "c\n\nCitations:\n- A, Page 3\n- B, Page 1"),
       ("tool2", "c\n\nCitations:\n- B, Page 1\n- C, Page 2")]).2.1
    "C, Page 2").1 (by decide)

/-- C5: with an empty index registry, `ask_agent` returns the fixed
knowledge-base-empty message at once and performs no external call at all —
neither the style retrieval nor the reasoning loop (and hence no embedding
service) is invoked, whatever the question. -/
theorem ask_agent_empty_registry (retrieveStyle : String → String)
    (runAgent : String → String → LoopResult) (question : String) :
    ask_agent [] retrieveStyle runAgent question =
      ("Knowledge base is empty (no Chroma DBs found).", []) := rfl

/-- C6: with a non-empty registry, the answer `ask_agent` returns is the
reasoning loop's output with any self-appended `"Citations:"` block
stripped by `remove_existing_citations` (the marker detected on its own
line), followed by at most one `"Citations:"` block derived solely from
the observed tool invocations — and by no block at all when no citation
was recovered.  Concretely: a loop-printed block is removed; a loop block
disagreeing with the tool observations is discarded, not merged; and an
answer with no recovered citations is returned without any block. -/
theorem ask_agent_citation_block_ownership (reg : List String)
    (retrieveStyle : String → String) (runAgent : String → String → LoopResult)
    (question : String) :
    (reg ≠ [] →
      (ask_agent reg retrieveStyle runAgent question).1 =
        (if (dedupFirst
              ((runAgent question (retrieveStyle question)).intermediate_steps.flatMap
                (fun s => extract_citations s.2))).isEmpty then
          remove_existing_citations
            (runAgent question (retrieveStyle question)).output
        else
          remove_existing_citations
              (runAgent question (retrieveStyle question)).output ++
            "\n\nCitations:\n" ++
            String.intercalate "\n"
              ((dedupFirst
                ((runAgent question (retrieveStyle question)).intermediate_steps.flatMap
                  (fun s => extract_citations s.2))).map (fun c => "- " ++ c)))) ∧
    remove_existing_citations "Body text.\n\nCitations:\n- Old, Page 7" =
      "Body text." ∧
    (ask_agent ["chroma_a"] (fun _ => "")
      (fun _ _ => ⟨"Body.\n\nCitations:\n- Old, Page 1",
        [("t", "c\n\nCitations:\n- New, Page 2")]⟩) "q").1 =
      "Body.\n\nCitations:\n- New, Page 2" ∧
    (ask_agent ["chroma_a"] (fun _ => "")
      (fun _ _ => ⟨"Plain answer.", []⟩) "q").1 = "Plain answer." := by
  refine ⟨?_, by decide, by decide, by decide⟩
  intro h
  have hne : reg.isEmpty = false := by
    simpa [List.isEmpty_iff] using h
  simp only [ask_agent, hne, Bool.false_eq_true, if_false]

/-- C6 witness: the composition shape instantiated at a concrete non-empty
registry and reasoning-loop outcome. -/
theorem ask_agent_citation_block_ownership_witness :
    (ask_agent ["chroma_a"] (fun _ => "")
      (fun _ _ => ⟨"Out.", [("t", "c\n\nCitations:\n- X, Page 4")]⟩) "q").1 =
      (if (dedupFirst ([("t", "c\n\nCitations:\n- X, Page 4")].flatMap
            (fun s => extract_citations s.2))).isEmpty then
        remove_existing_citations "Out."
      else
        remove_existing_citations "Out." ++ "\n\nCitations:\n" ++
          String.intercalate "\n"
            ((dedupFirst ([("t", "c\n\nCitations:\n- X, Page 4")].flatMap
              (fun s => extract_citations s.2))).map (fun c => "- " ++ c))) :=
  (ask_agent_citation_block_ownership ["chroma_a"] (fun _ => "")
    (fun _ _ => ⟨"Out.", [("t", "c\n\nCitations:\n- X, Page 4")]⟩) "q").1
    (by decide)

/-- C4: `create_chroma_with_retry` retries only overload-class errors
(message containing `"429"`, `"nocapacity"` or `"rate limit"`, case
insensitively), sleeping `10 * n` seconds before retry number `n` (delays
`10*1, 10*2, ...` with the hard-coded base delay 10), for at most 8
retries; any sequence of at most 8 overload errors followed by success
succeeds with exactly that delay schedule; a non-overload error re-raises
immediately with no retry and no delay; three overload errors then success
yield delays `10, 20, 30`; and nine overload errors exhaust the budget and
re-raise after 8 delays. -/
theorem create_chroma_retry_policy :
    (∀ m, isOverloadMsg m = true → ∀ j, j ≤ 8 →
      create_chroma_with_retry (List.replicate j (.err m) ++ [.ok]) 8 =
        .success ((List.range j).map (fun i => 10 * (i + 1)))) ∧
    (∀ m rest, isOverloadMsg m = false →
      create_chroma_with_retry (.err m :: rest) 8 = .raised m []) ∧
    create_chroma_with_retry
      [.err "Error 429", .err "NoCapacity", .err "rate limit hit", .ok] 8 =
      .success [10, 20, 30] ∧
    create_chroma_with_retry (List.replicate 9 (.err "429")) 8 =
      .raised "429" [10, 20, 30, 40, 50, 60, 70, 80] := by
  refine ⟨?_, ?_, by decide, by decide⟩
  · intro m hm j hj
    have h := retryGo_overload_then_ok m hm j 0 [] (by omega)
    simpa [create_chroma_with_retry] using h
  · intro m rest hm
    simp [create_chroma_with_retry, retryGo, hm]

/-- C4 witness: the schedule applied to two overload errors then success,
and the immediate re-raise applied to a non-overload error. -/
theorem create_chroma_retry_policy_witness :
    create_chroma_with_retry
      [.err "Rate Limit", .err "Rate Limit", .ok] 8 =
      .success ((List.range 2).map (fun i => 10 * (i + 1))) ∧
    create_chroma_with_retry [.err "boom", .ok] 8 = .raised "boom" [] :=
  ⟨by
    have h := create_chroma_retry_policy.1 "Rate Limit" (by decide) 2 (by decide)
    simpa using h,
   create_chroma_retry_policy.2.1 "boom" [.ok] (by decide)⟩

/-- C7 counterexample: index-name derivation is not collision-resistant —
the distinct filenames `"a b.pdf"` and `"a_b.pdf"` derive the same index
name `"chroma_a_b"`, because the space is normalised to `"_"`. -/
theorem db_name_collision :
    db_name "a b.pdf" = db_name "a_b.pdf" ∧ ("a b.pdf" : String) ≠ "a_b.pdf" := by
  constructor
  · decide
  · decide

/-- C7 amended: index-name derivation is deterministic — the name is
always `"chroma_"` followed by the filename stem with every character
outside `[A-Za-z0-9_-]` replaced by `"_"`, so re-ingesting the same
filename yields the same index name, the sanitized part uses only allowed
characters, and two filenames derive the same index name exactly when
their sanitized stems coincide; but, contrary to the claim, distinct
filenames whose sanitized stems coincide do collide. -/
theorem db_name_deterministic (f g : String) :
    db_name f = "chroma_" ++ sanitize_name f ∧
    (∀ c ∈ (sanitize_name f).data, allowedChar c = true) ∧
    (db_name f = db_name g ↔ sanitize_name f = sanitize_name g) := by
  refine ⟨rfl, ?_, ?_⟩
  · intro c hc
    simp only [sanitize_name] at hc
    rcases List.mem_map.1 hc with ⟨c0, _, hc0⟩
    by_cases h0 : allowedChar c0 = true
    · rw [← hc0, if_pos h0]
      exact h0
    · rw [← hc0, if_neg h0]
      decide
  · constructor
    · intro h
      have hdata := congrArg String.data h
      simp only [db_name, String.data_append] at hdata
      have := List.append_cancel_left hdata
      exact String.ext this
    · intro h
      simp [db_name, h]

/-- C7 amended witness: the allowed-character property and the
collision-iff-equal-sanitized-stems equivalence at concrete filenames. -/
theorem db_name_deterministic_witness :
    allowedChar '_' = true ∧
    (db_name "a b.pdf" = db_name "a-b.pdf" ↔
      sanitize_name "a b.pdf" = sanitize_name "a-b.pdf") :=
  ⟨(db_name_deterministic "a b.pdf" "x").2.1 '_' (by decide),
   (db_name_deterministic "a b.pdf" "a-b.pdf").2.2⟩

/-- C8: for loader-shaped input chunks (metadata `{source}` or
`{source, page}` with an integer page, as the PDF loader produces), every
chunk the metadata loop emits carries exactly the keys `source`
(original filename), `doc_type`, `db_name`, `chunk_id` and `page`, where
`chunk_id` is the chunk's document-local position (hence strictly
increasing across the document) and `page` is the 0-based integer copied
from the owning page when present and the literal string `"N/A"` when no
page metadata exists — never a default of zero. -/
theorem chunk_metadata_exact_keys (filename dt dbn : String)
    (chunks : List PageDoc)
    (hshape : ∀ c ∈ chunks,
      (∃ s, c.metadata = [("source", MetaVal.str s)]) ∨
      (∃ s p, c.metadata = [("source", MetaVal.str s), ("page", MetaVal.int p)])) :
    (attach_chunk_metadata filename dt dbn chunks).length = chunks.length ∧
    (∀ (i : Nat) (c : PageDoc), chunks[i]? = some c →
      ∃ c2 : PageDoc, (attach_chunk_metadata filename dt dbn chunks)[i]? = some c2 ∧
        c2.text = c.text ∧
        (c2.metadata.map Prod.fst).Perm
          ["source", "doc_type", "db_name", "chunk_id", "page"] ∧
        c2.metadata.lookup "source" = some (.str filename) ∧
        c2.metadata.lookup "doc_type" = some (.str dt) ∧
        c2.metadata.lookup "db_name" = some (.str dbn) ∧
        c2.metadata.lookup "chunk_id" = some (.int i) ∧
        c2.metadata.lookup "page" =
          some ((c.metadata.lookup "page").getD (.str "N/A"))) := by
  refine ⟨attachFrom_length filename dt dbn chunks 0, ?_⟩
  intro i c hget
  have hmem : c ∈ chunks := List.getElem?_mem hget
  have hidx : (attach_chunk_metadata filename dt dbn chunks)[i]? =
      some (attachOne filename dt dbn i c) := by
    rw [attach_chunk_metadata, attachFrom_get filename dt dbn chunks 0 i, hget]
    simp
  refine ⟨attachOne filename dt dbn i c, hidx, ?_⟩
  rcases hshape c hmem with ⟨s, hmeta⟩ | ⟨s, p, hmeta⟩
  · refine ⟨rfl, ?_, ?_, ?_, ?_, ?_, ?_⟩ <;>
      simp [attachOne, dictUpdate, dictSet, hmeta, List.lookup]
  · refine ⟨rfl, ?_, ?_, ?_, ?_, ?_, ?_⟩ <;>
      simp [attachOne, dictUpdate, dictSet, hmeta, List.lookup]
    decide

/-- C8 witness: the characterisation applied to a concrete two-chunk
document, one chunk with page metadata and one without. -/
theorem chunk_metadata_exact_keys_witness :
    ∃ c2 : PageDoc, (attach_chunk_metadata "a.pdf" "pdf" "chroma_a"
        [⟨"t0", [("source", MetaVal.str "./pdfs/a.pdf"), ("page", MetaVal.int 0)]⟩,
         ⟨"t1", [("source", MetaVal.str "./pdfs/a.pdf")]⟩])[1]? = some c2 ∧
      c2.text = "t1" ∧
      (c2.metadata.map Prod.fst).Perm
        ["source", "doc_type", "db_name", "chunk_id", "page"] ∧
      c2.metadata.lookup "source" = some (.str "a.pdf") ∧
      c2.metadata.lookup "doc_type" = some (.str "pdf") ∧
      c2.metadata.lookup "db_name" = some (.str "chroma_a") ∧
      c2.metadata.lookup "chunk_id" = some (.int 1) ∧
      c2.metadata.lookup "page" =
        some ((([("source", MetaVal.str "./pdfs/a.pdf")] :
          List (String × MetaVal)).lookup "page").getD (.str "N/A")) :=
  (chunk_metadata_exact_keys "a.pdf" "pdf" "chroma_a"
    [⟨"t0", [("source", MetaVal.str "./pdfs/a.pdf"), ("page", MetaVal.int 0)]⟩,
     ⟨"t1", [("source", MetaVal.str "./pdfs/a.pdf")]⟩]
    (by
      intro c hc
      rcases List.mem_cons.1 hc with h1 | h1
      · exact Or.inr ⟨"./pdfs/a.pdf", 0, by rw [h1]⟩
      · rcases List.mem_singleton.1 h1 with h2
        exact Or.inl ⟨"./pdfs/a.pdf", by rw [h2]⟩)).2 1
    ⟨"t1", [("source", MetaVal.str "./pdfs/a.pdf")]⟩ rfl

/-- C9: the ingestion loop skips, without raising, any file whose
lowercased name ends in neither `.pdf` nor `.docx`, and any file whose
loading yields an empty page sequence (as a 0-byte file does): in either
case the file contributes only a skip event and the remaining files are
processed exactly as if the bad file were absent.  (`processFiles` is a
total function, so no input aborts the run.) -/
theorem ingest_skip_bad_files (split : List PageDoc → List PageDoc)
    (f : InputFile) (rest : List InputFile) :
    ((".pdf".data.isSuffixOf (pyLower f.filename).data ||
      ".docx".data.isSuffixOf (pyLower f.filename).data) = false →
      processFiles split (f :: rest) =
        .skippedExt f.filename :: processFiles split rest) ∧
    (f.pages = [] →
      processFiles split (f :: rest) =
          .skippedExt f.filename :: processFiles split rest ∨
      processFiles split (f :: rest) =
          .skippedEmpty f.filename :: processFiles split rest) := by
  constructor
  · intro h
    simp [processFiles, h]
  · intro hpages
    by_cases hext : (".pdf".data.isSuffixOf (pyLower f.filename).data ||
        ".docx".data.isSuffixOf (pyLower f.filename).data) = false
    · left
      simp [processFiles, hext]
    · right
      have hext' : (".pdf".data.isSuffixOf (pyLower f.filename).data ||
          ".docx".data.isSuffixOf (pyLower f.filename).data) = true := by
        revert hext
        cases ".pdf".data.isSuffixOf (pyLower f.filename).data ||
            ".docx".data.isSuffixOf (pyLower f.filename).data <;> simp
      have hload : (load_file_with_real_pages f).1 = [] := by
        unfold load_file_with_real_pages
        by_cases h1 : pyLower (pySuffix f.filename) = ".pdf"
        · simp [h1, hpages]
        · by_cases h2 : pyLower (pySuffix f.filename) = ".docx"
          · simp [h1, h2, hpages]
          · simp [h1, h2]
      simp [processFiles, hext', hload]

/-- C9 witness: a wrong-extension file and an empty-loading PDF are both
skipped while the following good file is still ingested. -/
theorem ingest_skip_bad_files_witness :
    processFiles id [⟨"notes.txt", [⟨"x", []⟩]⟩] =
      .skippedExt "notes.txt" :: processFiles id [] ∧
    (processFiles id (⟨"empty.pdf", []⟩ ::
        [⟨"a.pdf", [⟨"t", [("source", MetaVal.str "./pdfs/a.pdf"),
          ("page", MetaVal.int 0)]⟩]⟩]) =
        .skippedExt "empty.pdf" :: processFiles id
          [⟨"a.pdf", [⟨"t", [("source", MetaVal.str "./pdfs/a.pdf"),
            ("page", MetaVal.int 0)]⟩]⟩] ∨
      processFiles id (⟨"empty.pdf", []⟩ ::
        [⟨"a.pdf", [⟨"t", [("source", MetaVal.str "./pdfs/a.pdf"),
          ("page", MetaVal.int 0)]⟩]⟩]) =
        .skippedEmpty "empty.pdf" :: processFiles id
          [⟨"a.pdf", [⟨"t", [("source", MetaVal.str "./pdfs/a.pdf"),
            ("page", MetaVal.int 0)]⟩]⟩]) :=
  ⟨(ingest_skip_bad_files id ⟨"notes.txt", [⟨"x", []⟩]⟩ []).1 (by decide),
   (ingest_skip_bad_files id ⟨"empty.pdf", []⟩
      [⟨"a.pdf", [⟨"t", [("source", MetaVal.str "./pdfs/a.pdf"),
        ("page", MetaVal.int 0)]⟩]⟩]).2 rfl⟩

end Chatbot
